import Mathlib

/-!
Verification of the konverson AI engine (game_logic.js, helper_worker.js,
ai_orchestrator.js) against its natural-language specification.

The board model, placement rules, conversion resolution, move generation,
evaluation and the search-support routines are translated here as executable
Lean definitions, keeping the source names.  Machine numbers are modelled as
Int (JavaScript numbers stay far below 2^53 in this code, so no overflow
modelling is needed); the nullable grid cells become Option values.
-/

set_option maxRecDepth 4000

/-- Colors of the four players, as in CONFIG.COLORS. -/
inductive Color where
  | A | B | C | D
deriving DecidableEq, Repr

/-- Posture of a piece: freshly placed this turn, or aged. -/
inductive Posture where
  | new | old
deriving DecidableEq, Repr

/-- A piece on the board: color plus posture. -/
structure Piece where
  color : Color
  posture : Posture
deriving DecidableEq, Repr

/-- A board cell: empty (null in the source) or one piece. -/
abbrev Cell := Option Piece

/-- The board: a grid of nullable cells, row major, as in the source. -/
abbrev Board := List (List Cell)

/-- A coordinate pair, as the source objects with r and c fields. -/
structure Pos where
  r : Nat
  c : Nat
deriving DecidableEq, Repr

/-- Teams 1 and 2 of PLAYER_TEAMS. -/
inductive Team where
  | one | two
deriving DecidableEq, Repr

/-- Region classification of a square, the result of getSquexType. -/
inductive SquexType where
  | corner | border | preborder | interior
deriving DecidableEq, Repr

/-- The numeric configuration fields consulted by the translated code
(the source reads them from the CONFIG object sent with each request). -/
structure Config where
  boardSize : Nat
  CANDIDATE_SINGLES_LIMIT : Nat
  PIECE_VALUE : Int
  CONTACT_BONUS : Int
  EXTENT_BONUS_MULTIPLIER : Int
  CORNER_PLACEMENT_PENALTY : Int
  STATIC_CORNER_PENALTY : Int
  WIN_SCORE : Int
deriving Repr

/-- CONFIG.COLORS, the fixed player order. -/
def COLORS : List Color := [Color.A, Color.B, Color.C, Color.D]

/-- CONFIG.ALLIANCES: A and C are allied, B and D are allied. -/
def ALLIANCES : Color → Color
  | Color.A => Color.C
  | Color.C => Color.A
  | Color.B => Color.D
  | Color.D => Color.B

/-- CONFIG.PLAYER_TEAMS: A and C are team 1, B and D are team 2. -/
def PLAYER_TEAMS : Color → Team
  | Color.A => Team.one
  | Color.C => Team.one
  | Color.B => Team.two
  | Color.D => Team.two

/-- isEnemy from game_logic.js: a present color that is neither the player
nor the player's ally. -/
def isEnemy (pieceColor playerColor : Color) : Bool :=
  decide (pieceColor ≠ playerColor ∧ ALLIANCES playerColor ≠ pieceColor)

/-- isValid from game_logic.js: coordinates inside the boardSize square. -/
def isValid (cfg : Config) (r c : Int) : Bool :=
  decide (0 ≤ r ∧ r < (cfg.boardSize : Int) ∧ 0 ≤ c ∧ c < (cfg.boardSize : Int))

/-- isNear from game_logic.js: Chebyshev distance at most 2. -/
def isNear (p q : Pos) : Bool :=
  decide (((p.r : Int) - q.r).natAbs ≤ 2 ∧ ((p.c : Int) - q.c).natAbs ≤ 2)

/-- getSquexType from game_logic.js: corner, border, preborder or interior,
from the coordinates alone. -/
def getSquexType (cfg : Config) (r c : Nat) : SquexType :=
  if (r = 0 ∨ r = cfg.boardSize - 1) ∧ (c = 0 ∨ c = cfg.boardSize - 1) then .corner
  else if r = 0 ∨ r = cfg.boardSize - 1 ∨ c = 0 ∨ c = cfg.boardSize - 1 then .border
  else if r = 1 ∨ r = cfg.boardSize - 2 ∨ c = 1 ∨ c = cfg.boardSize - 2 then .preborder
  else .interior

/-- Raw cell read, board[r][c]; a missing row or column reads as empty,
matching an undefined read used only as a truthiness test. -/
def cellAt (b : Board) (r c : Nat) : Cell :=
  ((b[r]?).bind (fun row => row[c]?)).join

/-- Guarded cell read: the source pattern isValid(r, c) && board[r][c]. -/
def cellAtI (cfg : Config) (b : Board) (r c : Int) : Cell :=
  if isValid cfg r c then cellAt b r.toNat c.toNat else none

/-- The row of a board at index r (empty when out of range). -/
def rowAt (b : Board) (r : Nat) : List Cell :=
  (b[r]?).getD []

/-- Write one cell of the board, board[p.r][p.c] = v. -/
def setCell (b : Board) (p : Pos) (v : Cell) : Board :=
  b.set p.r ((rowAt b p.r).set p.c v)

/-- The position names an actual cell of the board. -/
def inBounds (b : Board) (p : Pos) : Prop :=
  p.r < b.length ∧ p.c < (rowAt b p.r).length

instance (b : Board) (p : Pos) : Decidable (inBounds b p) := by
  unfold inBounds; infer_instance

/-- The eight compass directions in the order the source loops dr, dc from
-1 to 1 skipping (0, 0). -/
def neighborDirs : List (Int × Int) :=
  [(-1, -1), (-1, 0), (-1, 1), (0, -1), (0, 1), (1, -1), (1, 0), (1, 1)]

/-- The direction order of getConversions in game_logic.js. -/
def convDirections : List (Int × Int) :=
  [(-1, 0), (1, 0), (0, -1), (0, 1), (-1, -1), (-1, 1), (1, -1), (1, 1)]

/-- The whole-board emptiness scan of isValidPlacement (it walks the actual
array dimensions of the board argument). -/
def isBoardEmpty (b : Board) : Bool :=
  b.all (fun row => row.all (fun cell => cell.isNone))

/-- The neighbor requirement of isValidPlacement for a non-interior square:
some 8-neighbor is occupied and of the region one step closer to the
interior (for a corner, only the diagonal neighbor counts). -/
def hasRequiredNeighbor (cfg : Config) (b : Board) (ty : SquexType) (r c : Nat) : Bool :=
  neighborDirs.foldl (fun acc d =>
    let nr : Int := (r : Int) + d.1
    let nc : Int := (c : Int) + d.2
    match cellAtI cfg b nr nc with
    | none => acc
    | some _ =>
      let nt := getSquexType cfg nr.toNat nc.toNat
      if (ty = .preborder ∧ nt = .interior) ∨
         (ty = .border ∧ nt = .preborder) ∨
         (ty = .corner ∧ d.1.natAbs = 1 ∧ d.2.natAbs = 1 ∧ nt = .preborder) then true
      else acc) false

/-- isValidPlacement from game_logic.js: unoccupied, not near any placement
already chosen this turn, and the region rule (interior always legal; the
empty board with no placements yet admits nothing else; otherwise a
required occupied neighbor). -/
def isValidPlacement (cfg : Config) (r c : Nat) (b : Board) (turnPlacements : List Pos) : Bool :=
  if (cellAt b r c).isSome then false
  else if turnPlacements.any (fun p => isNear ⟨r, c⟩ p) then false
  else
    match getSquexType cfg r c with
    | .interior => true
    | ty =>
      if isBoardEmpty b ∧ turnPlacements = [] then false
      else hasRequiredNeighbor cfg b ty r c

/-- The walk of getConversions from step i = 2 on: extend the captured run
while the piece is an old piece of the line color, commit the run when a
piece of the moving color closes it, stop empty-handed otherwise.  The fuel
is the number of loop steps left, boardSize - 2 at the start. -/
def convExtend (cfg : Config) (b : Board) (color lineColor : Color) (dr dc : Int) :
    Int → Int → List Pos → Nat → List Pos
  | _, _, _, 0 => []
  | cr, cc, captured, fuel + 1 =>
    match cellAtI cfg b cr cc with
    | none => []
    | some piece =>
      if piece.color = lineColor ∧ piece.posture = .old then
        convExtend cfg b color lineColor dr dc (cr + dr) (cc + dc)
          (captured ++ [⟨cr.toNat, cc.toNat⟩]) fuel
      else if piece.color = color then captured
      else []

/-- One direction of getConversions: the i = 1 step fixes the line color
(stopping on a new piece or one of the moving color), then convExtend. -/
def convDir (cfg : Config) (b : Board) (color : Color) (r c : Nat) (d : Int × Int) : List Pos :=
  let cr : Int := (r : Int) + d.1
  let cc : Int := (c : Int) + d.2
  match cellAtI cfg b cr cc with
  | none => []
  | some piece =>
    if piece.posture = .new ∨ piece.color = color then []
    else convExtend cfg b color piece.color d.1 d.2 (cr + d.1) (cc + d.2)
      [⟨cr.toNat, cc.toNat⟩] (cfg.boardSize - 2)

/-- getConversions from game_logic.js: the committed captures of all eight
directions, in direction order. -/
def getConversions (cfg : Config) (r c : Nat) (color : Color) (b : Board) : List Pos :=
  convDirections.foldl (fun acc d => acc ++ convDir cfg b color r c d) []

/-- Indexed map over one row, carrying the column index. -/
def mapRowIdx (f : Nat → Cell → Cell) : Nat → List Cell → List Cell
  | _, [] => []
  | c, x :: xs => f c x :: mapRowIdx f (c + 1) xs

/-- Indexed map over the board, carrying the row index. -/
def mapBoardIdx (f : Nat → Nat → Cell → Cell) : Nat → Board → Board
  | _, [] => []
  | r, row :: rest => mapRowIdx (f r) 0 row :: mapBoardIdx f (r + 1) rest

/-- The aging step of applyMove: inside the boardSize window, every new
piece of the moving color turns old. -/
def ageCell (cfg : Config) (playerColor : Color) (r c : Nat) : Cell → Cell
  | none => none
  | some pc =>
    if r < cfg.boardSize ∧ c < cfg.boardSize ∧ pc.color = playerColor ∧ pc.posture = .new then
      some ⟨playerColor, .old⟩
    else some pc

/-- The aging loop of applyMove over the whole boardSize window. -/
def ageBoard (cfg : Config) (playerColor : Color) (b : Board) : Board :=
  mapBoardIdx (ageCell cfg playerColor) 0 b

/-- Recolor one converted cell to the moving color, keeping its posture
(the source mutates only the color field). -/
def recolorCell (b : Board) (q : Pos) (playerColor : Color) : Board :=
  setCell b q (match cellAt b q.r q.c with
    | some pc => some ⟨playerColor, pc.posture⟩
    | none => none)

/-- Recolor a whole conversion list in order. -/
def applyConvList (b : Board) (l : List Pos) (playerColor : Color) : Board :=
  l.foldl (fun bb q => recolorCell bb q playerColor) b

/-- The placement loop of applyMove. -/
def placeAll (b : Board) (m : List Pos) (playerColor : Color) : Board :=
  m.foldl (fun bb p => setCell bb p (some ⟨playerColor, Posture.new⟩)) b

/-- applyMove from game_logic.js: copy, age the mover's new pieces, put a
new piece on every placement, then resolve conversions placement by
placement against the evolving board. -/
def applyMove (cfg : Config) (b : Board) (m : List Pos) (playerColor : Color) : Board :=
  let placed := placeAll (ageBoard cfg playerColor b) m playerColor
  m.foldl (fun bb p => applyConvList bb (getConversions cfg p.r p.c playerColor bb) playerColor) placed

/-- A candidate single placement with its heuristic score. -/
structure ScoredSingle where
  placement : Pos
  score : Int
deriving DecidableEq, Repr

/-- A move (one or two placements) with its heuristic score. -/
structure ScoredMove where
  move : List Pos
  score : Int
deriving DecidableEq, Repr

/-- Stable insertion of one element into a list already sorted by
descending key: it goes in front of the first strictly smaller key. -/
def insertByDesc (key : α → Int) (x : α) : List α → List α
  | [] => [x]
  | y :: ys => if key x > key y then x :: y :: ys else y :: insertByDesc key x ys

/-- Stable sort by descending key, the behavior of the ECMAScript stable
Array sort with comparator (a, b) => key b - key a. -/
def sortByDesc (key : α → Int) (l : List α) : List α :=
  l.foldl (fun acc x => insertByDesc key x acc) []

/-- All positions of the boardSize window in row-major order, the double
loop of getOrderedMoves. -/
def allPositions (cfg : Config) : List Pos :=
  (List.range cfg.boardSize).flatMap (fun r => (List.range cfg.boardSize).map (fun c => ⟨r, c⟩))

/-- The legal single placements scan of getOrderedMoves. -/
def singlePlacements (cfg : Config) (b : Board) : List Pos :=
  (allPositions cfg).filter (fun p => isValidPlacement cfg p.r p.c b [])

/-- The heuristic score getOrderedMoves gives one placement: a corner
penalty plus a contact bonus per adjacent enemy piece. -/
def placementScore (cfg : Config) (b : Board) (playerColor : Color) (p : Pos) : Int :=
  let base : Int := if getSquexType cfg p.r p.c = .corner then -cfg.CORNER_PLACEMENT_PENALTY else 0
  neighborDirs.foldl (fun s d =>
    match cellAtI cfg b ((p.r : Int) + d.1) ((p.c : Int) + d.2) with
    | some pc => if isEnemy pc.color playerColor then s + cfg.CONTACT_BONUS else s
    | none => s) base

/-- All ordered pairs (i, j) with i before j, the double loop over the
candidate slice. -/
def pairsOf : List α → List (α × α)
  | [] => []
  | x :: xs => xs.map (fun y => (x, y)) ++ pairsOf xs

/-- The inner loop of the final double-move fallback. -/
def firstNonNearPairAux (p : Pos) : List Pos → Option (Pos × Pos)
  | [] => none
  | q :: qs => if isNear p q then firstNonNearPairAux p qs else some (p, q)

/-- The first non-near pair of the raw single-placement list, the fallback
of getOrderedMoves when the candidate slice yields no double. -/
def firstNonNearPair : List Pos → Option (Pos × Pos)
  | [] => none
  | p :: ps =>
    match firstNonNearPairAux p ps with
    | some pr => some pr
    | none => firstNonNearPair ps

/-- getOrderedMoves from game_logic.js: enumerate legal singles, decide the
placement count from the turn counter, score and sort the singles, and for
double turns emit the scored non-near pairs of the candidate slice with the
two fallbacks of the source. -/
def getOrderedMoves (cfg : Config) (b : Board) (turnCount : Nat) (playerColor : Color) :
    List ScoredMove :=
  let sp := singlePlacements cfg b
  let pawnsToPlace := if turnCount = 1 then 1 else if sp.length ≥ 2 then 2 else sp.length
  if pawnsToPlace = 0 then []
  else
    let scoredSingles :=
      sortByDesc ScoredSingle.score (sp.map (fun p => ⟨p, placementScore cfg b playerColor p⟩))
    if pawnsToPlace = 1 then scoredSingles.map (fun s => ⟨[s.placement], s.score⟩)
    else
      let candidateSingles := scoredSingles.take cfg.CANDIDATE_SINGLES_LIMIT
      let doubleMoves := sortByDesc ScoredMove.score
        ((pairsOf candidateSingles).filterMap (fun sp2 =>
          if isNear sp2.1.placement sp2.2.placement then none
          else some ⟨[sp2.1.placement, sp2.2.placement], sp2.1.score + sp2.2.score⟩))
      if doubleMoves ≠ [] then doubleMoves
      else
        match firstNonNearPair sp with
        | some pr => [⟨[pr.1, pr.2], 0⟩]
        | none =>
          match scoredSingles with
          | s :: _ => [⟨[s.placement], s.score⟩]
          | [] => []

/-- A conversion move of helper_worker.js, a move annotated with the number
of conversions counted on the statically placed board. -/
structure ConvMove where
  move : List Pos
  conversions : Nat
deriving DecidableEq, Repr

/-- The temp board of getConversionMoves: the move placements written onto
a copy of the board, with no aging and no recoloring. -/
def tempPlace (b : Board) (m : List Pos) (playerColor : Color) : Board :=
  m.foldl (fun bb p => setCell bb p (some ⟨playerColor, Posture.new⟩)) b

/-- The conversion total getConversionMoves computes for one move: the
per-placement counts against the statically placed board, summed. -/
def tempConvTotal (cfg : Config) (b : Board) (m : List Pos) (playerColor : Color) : Nat :=
  (m.map (fun p => (getConversions cfg p.r p.c playerColor (tempPlace b m playerColor)).length)).sum

/-- getConversionMoves from helper_worker.js: the ordered moves whose
static conversion total is positive, each annotated with that total,
sorted descending by it. -/
def getConversionMoves (cfg : Config) (b : Board) (turnCount : Nat) (playerColor : Color) :
    List ConvMove :=
  sortByDesc (fun mc => (mc.conversions : Int))
    ((getOrderedMoves cfg b turnCount playerColor).filterMap (fun mo =>
      let n := tempConvTotal cfg b mo.move playerColor
      if 0 < n then some ⟨mo.move, n⟩ else none))

/-- Modelled from the spec: the total conversions count of a move "when
fully applied (with their conversion resolution)", that is the number of
recolorings performed by applyMove, where the conversions of each placement
are computed on the board already holding the earlier placements'
recolorings.  The spec words this as the annotation of conversion-only
moves; the source getConversionMoves counts on the un-recolored board
instead, which is what claim C5 is tested against. -/
def conversionsWhenApplied (cfg : Config) (b : Board) (m : List Pos) (playerColor : Color) : Nat :=
  let placed := placeAll (ageBoard cfg playerColor b) m playerColor
  (m.foldl (fun st p =>
    let cs := getConversions cfg p.r p.c playerColor st.1
    (applyConvList st.1 cs playerColor, st.2 + cs.length)) (placed, 0)).2

/-- The neighbor scan of one bfs step of hasConnection: enqueue the
unvisited same-color non-corner neighbor in direction d, if any. -/
def winScanStep (cfg : Config) (b : Board) (color : Color) (p : Pos)
    (st : List Pos × List Pos) (d : Int × Int) : List Pos × List Pos :=
  let nr : Int := (p.r : Int) + d.1
  let nc : Int := (p.c : Int) + d.2
  let q : Pos := ⟨nr.toNat, nc.toNat⟩
  match cellAtI cfg b nr nc with
  | some pc =>
    if pc.color = color ∧ q ∉ st.1 ∧ getSquexType cfg q.r q.c ≠ .corner then
      (q :: st.1, st.2 ++ [q])
    else st
  | none => st

/-- One step of the breadth-first search of hasConnection: pop the queue
head, stop successfully on the target side, otherwise enqueue the unvisited
same-color non-corner neighbors in direction order.  The fuel bounds the
number of pops; boardSize squared plus one always suffices because every
enqueued cell is freshly marked visited. -/
def winBfs (cfg : Config) (b : Board) (color : Color) (southward : Bool) :
    Nat → List Pos → List Pos → (Bool × List Pos)
  | 0, _, vis => (false, vis)
  | _ + 1, [], vis => (false, vis)
  | fuel + 1, p :: rest, vis =>
    if (southward ∧ p.r = cfg.boardSize - 1) ∨ (¬southward ∧ p.c = cfg.boardSize - 1) then
      (true, vis)
    else
      let st := neighborDirs.foldl (winScanStep cfg b color p) (vis, [])
      winBfs cfg b color southward fuel (rest ++ st.2) st.1

/-- The bfs entry of game_logic.js: refuse an already visited start, else
mark it and search. -/
def tryStart (cfg : Config) (b : Board) (color : Color) (southward : Bool) (p : Pos)
    (vis : List Pos) : Bool × List Pos :=
  if p ∈ vis then (false, vis)
  else winBfs cfg b color southward (cfg.boardSize * cfg.boardSize + 1) [p] (p :: vis)

/-- One candidate start of the north-south scan of hasConnection. -/
def hasConnStepNS (cfg : Config) (b : Board) (color : Color) (st : Bool × List Pos) (c : Nat) :
    Bool × List Pos :=
  if st.1 then st
  else
    match cellAt b 0 c with
    | some pc =>
      if pc.color = color ∧ getSquexType cfg 0 c ≠ .corner then
        tryStart cfg b color true ⟨0, c⟩ st.2
      else st
    | none => st

/-- One candidate start of the east-west scan of hasConnection. -/
def hasConnStepEW (cfg : Config) (b : Board) (color : Color) (st : Bool × List Pos) (r : Nat) :
    Bool × List Pos :=
  if st.1 then st
  else
    match cellAt b r 0 with
    | some pc =>
      if pc.color = color ∧ getSquexType cfg r 0 ≠ .corner then
        tryStart cfg b color false ⟨r, 0⟩ st.2
      else st
    | none => st

/-- hasConnection from game_logic.js: a north-south scan over top-row
starts sharing one visited set, then an east-west scan over left-column
starts sharing another; corner squares never start or join a path. -/
def hasConnection (cfg : Config) (color : Color) (b : Board) : Bool :=
  let ns := (List.range cfg.boardSize).foldl (hasConnStepNS cfg b color) (false, [])
  if ns.1 then true
  else
    let ew := (List.range cfg.boardSize).foldl (hasConnStepEW cfg b color) (false, [])
    ew.1

/-- checkWinCondition from game_logic.js, reduced to the winner color: the
colors are tested in CONFIG.COLORS order and the first connected one wins.
The path the source also returns feeds only the UI animation. -/
def checkWinCondition (cfg : Config) (b : Board) : Option Color :=
  if hasConnection cfg Color.A b then some Color.A
  else if hasConnection cfg Color.B b then some Color.B
  else if hasConnection cfg Color.C b then some Color.C
  else if hasConnection cfg Color.D b then some Color.D
  else none

/-- The running totals of the evaluate scan. -/
structure EvalAcc where
  t1Count : Int
  t2Count : Int
  t1Corner : Int
  t2Corner : Int
  t1Extent : Int
  t2Extent : Int
  visited : List Pos
deriving Repr

/-- The neighbor scan of one flood-fill step of evaluate: enqueue the
unvisited occupied neighbor of the same team in direction d, if any. -/
def evalScanStep (cfg : Config) (b : Board) (team : Team) (p : Pos)
    (st : List Pos × List Pos) (d : Int × Int) : List Pos × List Pos :=
  let nr : Int := (p.r : Int) + d.1
  let nc : Int := (p.c : Int) + d.2
  let q : Pos := ⟨nr.toNat, nc.toNat⟩
  match cellAtI cfg b nr nc with
  | some pc =>
    if q ∉ st.1 ∧ PLAYER_TEAMS pc.color = team then (q :: st.1, st.2 ++ [q])
    else st
  | none => st

/-- The flood fill of evaluate: pop the queue head, widen the bounding box,
enqueue unvisited occupied neighbors of the same team.  Fuel as in winBfs. -/
def evalBfs (cfg : Config) (b : Board) (team : Team) :
    Nat → List Pos → List Pos → Nat × Nat × Nat × Nat → (List Pos × (Nat × Nat × Nat × Nat))
  | 0, _, vis, box => (vis, box)
  | _ + 1, [], vis, box => (vis, box)
  | fuel + 1, p :: rest, vis, box =>
    let box := (min box.1 p.r, max box.2.1 p.r, min box.2.2.1 p.c, max box.2.2.2 p.c)
    let st := neighborDirs.foldl (evalScanStep cfg b team p) (vis, [])
    evalBfs cfg b team fuel (rest ++ st.2) st.1 box

/-- One cell of the evaluate scan: count the piece for its team, charge the
static corner penalty, and when the cell is not yet visited flood fill its
team component and award the squared extent bonus. -/
def evalStep (cfg : Config) (b : Board) (acc : EvalAcc) (p : Pos) : EvalAcc :=
  match cellAt b p.r p.c with
  | none => acc
  | some pc =>
    let team := PLAYER_TEAMS pc.color
    let corner : Int := if getSquexType cfg p.r p.c = .corner then cfg.STATIC_CORNER_PENALTY else 0
    let acc :=
      match team with
      | .one => { acc with t1Count := acc.t1Count + 1, t1Corner := acc.t1Corner + corner }
      | .two => { acc with t2Count := acc.t2Count + 1, t2Corner := acc.t2Corner + corner }
    if p ∈ acc.visited then acc
    else
      let st := evalBfs cfg b team (cfg.boardSize * cfg.boardSize + 1) [p] (p :: acc.visited)
        (p.r, p.r, p.c, p.c)
      let extent := max (st.2.2.1 - st.2.1) (st.2.2.2.2 - st.2.2.2.1)
      let bonus := ((extent * extent : Nat) : Int) * cfg.EXTENT_BONUS_MULTIPLIER
      match team with
      | .one => { acc with t1Extent := acc.t1Extent + bonus, visited := st.1 }
      | .two => { acc with t2Extent := acc.t2Extent + bonus, visited := st.1 }

/-- evaluate from game_logic.js: the win score for a connected color, else
piece advantage plus extent bonuses minus corner penalties, all from the
viewpoint of team 1. -/
def evaluate (cfg : Config) (b : Board) : Int :=
  match checkWinCondition cfg b with
  | some winner => if PLAYER_TEAMS winner = .one then cfg.WIN_SCORE else -cfg.WIN_SCORE
  | none =>
    let acc := (allPositions cfg).foldl (evalStep cfg b) ⟨0, 0, 0, 0, 0, 0, []⟩
    (acc.t1Count - acc.t2Count) * cfg.PIECE_VALUE + acc.t1Extent - acc.t2Extent
      - acc.t1Corner + acc.t2Corner

/-- The transposition table flags TT_EXACT, TT_ALPHA, TT_BETA of the
search workers. -/
inductive TTFlag where
  | ttExact | ttAlpha | ttBeta
deriving DecidableEq, Repr

/-- The flag chosen when alphaBeta stores its result (the tail of every
worker variant): TT_EXACT by default, TT_BETA when bestValue is at most the
original alpha, TT_ALPHA when bestValue is at least beta. -/
def storeFlag (bestValue originalAlpha beta : Int) : TTFlag :=
  if bestValue ≤ originalAlpha then .ttBeta
  else if bestValue ≥ beta then .ttAlpha
  else .ttExact

/-- The probe at the head of alphaBeta, for an entry of sufficient depth:
an exact entry returns its score, a TT_ALPHA entry at or below alpha
returns alpha (an upper bound), a TT_BETA entry at or above beta returns
beta (a lower bound); otherwise the probe misses. -/
def ttProbe (flag : TTFlag) (storedScore alpha beta : Int) : Option Int :=
  if flag = .ttExact then some storedScore
  else if flag = .ttAlpha ∧ storedScore ≤ alpha then some alpha
  else if flag = .ttBeta ∧ storedScore ≥ beta then some beta
  else none

/-- CONFIG.COLORS[playerIndex]. -/
def colorOfIndex (playerIndex : Nat) : Color :=
  COLORS.getD playerIndex Color.A

/-- The root loop of the ai_orchestrator.js onmessage handler at depth 1:
each root move is applied and handed to parallelAlphaBeta with depth 0,
which returns evaluate of the child board at once; a strictly larger raw
value replaces the running best; after every job the deadline is checked
and a hit sets timeUp and breaks.  The expired oracle abstracts only the
clock reading, as a function of how many jobs have finished. -/
def rootLoop (cfg : Config) (b : Board) (playerColor : Color) (expired : Nat → Bool) :
    List ScoredMove → Nat → Option (List Pos) → Option Int →
    (Option (List Pos) × Option Int × Bool)
  | [], _, bm, bv => (bm, bv, false)
  | mo :: rest, jobs, bm, bv =>
    let v := evaluate cfg (applyMove cfg b mo.move playerColor)
    let bm' := if (match bv with | none => true | some w => v > w) then some mo.move else bm
    let bv' := if (match bv with | none => true | some w => v > w) then some v else bv
    if expired (jobs + 1) then (bm', bv', true)
    else rootLoop cfg b playerColor expired rest (jobs + 1) bm' bv'

/-- The depth-1 root selection of ai_orchestrator.js when no timeout fires:
the move of the first strictly largest child value, with that value.  The
child values are raw evaluate results (team 1 viewpoint); nothing is
negated for the side to move. -/
def rootPickDepth1 (cfg : Config) (b : Board) (turnCount playerIndex : Nat) :
    Option (List Pos) × Option Int :=
  let playerColor := colorOfIndex playerIndex
  let st := rootLoop cfg b playerColor (fun _ => false)
    (getOrderedMoves cfg b turnCount playerColor) 0 none none
  (st.1, st.2.1)

/-- The ai_orchestrator.js onmessage handler specialized to a configuration
with AI_MAX_DEPTH = 1 (so parallelAlphaBeta always receives depth 0 and
returns evaluate immediately): finalBestMove starts as null, the depth-1
loop runs, and when the deadline fired during the loop the handler breaks
out before finalBestMove is ever assigned, replying null. -/
def orchestrateDepth1 (cfg : Config) (b : Board) (turnCount playerIndex : Nat)
    (expired : Nat → Bool) : Option (List Pos) :=
  let playerColor := colorOfIndex playerIndex
  let rootMoves := getOrderedMoves cfg b turnCount playerColor
  if rootMoves.isEmpty then none
  else
    let st := rootLoop cfg b playerColor expired rootMoves 0 none none
    if st.2.2 then none else st.1

/-- The team swap of claim C6: recolor A to B, B to A, C to D, D to C. -/
def swapColor : Color → Color
  | Color.A => Color.B
  | Color.B => Color.A
  | Color.C => Color.D
  | Color.D => Color.C

/-- Swap a piece's color, keeping its posture. -/
def swapPiece (pc : Piece) : Piece :=
  ⟨swapColor pc.color, pc.posture⟩

/-- Swap the two teams over a whole board. -/
def swapTeams (b : Board) : Board :=
  b.map (fun row => row.map (fun cell => cell.map swapPiece))

/-- The swap of team labels matching swapColor. -/
def swapTeam : Team → Team
  | Team.one => Team.two
  | Team.two => Team.one

/-- Exchange the team-1 and team-2 totals of an evaluate accumulator. -/
def swapAcc (acc : EvalAcc) : EvalAcc :=
  ⟨acc.t2Count, acc.t1Count, acc.t2Corner, acc.t1Corner, acc.t2Extent, acc.t1Extent,
    acc.visited⟩

/-- Build a concrete n by n board from an association list of pieces. -/
def mkBoard (n : Nat) (ps : List (Pos × Piece)) : Board :=
  (List.range n).map (fun r => (List.range n).map (fun c =>
    (ps.find? (fun pr => decide (pr.1 = ⟨r, c⟩))).map Prod.snd))

/-- The default configuration constants of the source, at board size n. -/
def stdCfg (n : Nat) : Config :=
  { boardSize := n, CANDIDATE_SINGLES_LIMIT := 30, PIECE_VALUE := 100, CONTACT_BONUS := 5,
    EXTENT_BONUS_MULTIPLIER := 5, CORNER_PLACEMENT_PENALTY := 200, STATIC_CORNER_PENALTY := 50,
    WIN_SCORE := 100000 }

/-- Board of the C2 counterexample: an old allied C piece at (0, 1) flanked
by the anchor (0, 0) and an old A closer at (0, 2). -/
def allyCaptureBoard : Board :=
  mkBoard 3 [(⟨0, 1⟩, ⟨Color.C, .old⟩), (⟨0, 2⟩, ⟨Color.A, .old⟩)]

/-- Board of the C3 counterexample: an old B at (3, 2) and an old A at
(3, 3) on a 7 by 7 board, B to move. -/
def rootSelBoard : Board :=
  mkBoard 7 [(⟨3, 2⟩, ⟨Color.B, .old⟩), (⟨3, 3⟩, ⟨Color.A, .old⟩)]

/-- Board of the C5 counterexample: a vertical B B run closed by A below,
and a horizontal B run meeting it, on a 7 by 7 board. -/
def convCountBoard : Board :=
  mkBoard 7 [(⟨3, 3⟩, ⟨Color.B, .old⟩), (⟨4, 3⟩, ⟨Color.B, .old⟩),
    (⟨5, 3⟩, ⟨Color.A, .old⟩), (⟨4, 4⟩, ⟨Color.B, .old⟩), (⟨4, 5⟩, ⟨Color.B, .old⟩)]

/-- Board of the C6 counterexample: full columns of A and of B, so both
teams hold a north-south connection at once. -/
def doubleWinBoard : Board :=
  mkBoard 4 ((List.range 4).flatMap (fun r =>
    [(⟨r, 1⟩, (⟨Color.A, .old⟩ : Piece)), (⟨r, 2⟩, (⟨Color.B, .old⟩ : Piece))]))

/-- Board of the C8 and C9 witnesses: an old B at (0, 1) that the placement
at (0, 0) converts, an old A closer at (0, 2), and a new A at (2, 2) that
aging must turn old. -/
def witnessBoard : Board :=
  mkBoard 3 [(⟨0, 1⟩, ⟨Color.B, .old⟩), (⟨0, 2⟩, ⟨Color.A, .old⟩), (⟨2, 2⟩, ⟨Color.A, .new⟩)]

/-- The number of occupied cells of a board. -/
def countOccupied (b : Board) : Nat :=
  (b.map (fun row => row.countP (fun cell => cell.isSome))).sum

/-- The aging step on one cell without the window guard (inside the
boardSize window ageCell acts like this). -/
def plainAge (playerColor : Color) : Cell → Cell
  | none => none
  | some pc =>
    if pc.color = playerColor ∧ pc.posture = .new then some ⟨playerColor, .old⟩
    else some pc

/-- The state invariant of the conversion phase of applyMove, used for
claim C9: inside the boardSize window, every placement cell holds a new
piece of the moving color, and every other cell is either its aged original
or an old non-mover cell recolored to the moving color. -/
def applyInv (cfg : Config) (b : Board) (m : List Pos) (playerColor : Color) (bb : Board) :
    Prop :=
  ∀ r c : Nat, r < cfg.boardSize → c < cfg.boardSize →
    ((⟨r, c⟩ : Pos) ∈ m → cellAt bb r c = some ⟨playerColor, Posture.new⟩) ∧
    ((⟨r, c⟩ : Pos) ∉ m →
      (cellAt bb r c = plainAge playerColor (cellAt b r c) ∨
       (∃ pc, cellAt b r c = some pc ∧ pc.color ≠ playerColor ∧ pc.posture = Posture.old ∧
         cellAt bb r c = some ⟨playerColor, Posture.old⟩)))

/-- Claim C1: the source is wrong.  The spec (and the probe at the head of
alphaBeta itself) takes TT_ALPHA as the upper-bound flag of a fail-low
result and TT_BETA as the lower-bound flag of a fail-high result, but the
store step of every worker variant writes TT_BETA when bestValue is at most
the original alpha and TT_ALPHA when bestValue is at least beta — the two
flags are swapped.  Here: a fail-low store (bestValue -5, original alpha 0)
gets TT_BETA, a fail-high store (bestValue 15, beta 10) gets TT_ALPHA, and
the probe then treats such a fail-low entry as a lower bound, returning the
unrelated beta bound. -/
theorem C1_store_flag_swapped :
    storeFlag (-5) 0 10 = TTFlag.ttBeta ∧ TTFlag.ttBeta ≠ TTFlag.ttAlpha ∧
    storeFlag 15 0 10 = TTFlag.ttAlpha ∧
    ttProbe (storeFlag (-5) 0 10) (-5) (-100) (-50) = some (-50) := by
  decide

/-- Claim C2 counterexample: with A to move, getConversions captures the
allied old C piece at (0, 1) — flanking cares only about the mover's own
color, not the alliance, so the claim that only enemies of K are captured
is false. -/
theorem C2_ally_captured :
    getConversions (stdCfg 3) 0 0 Color.A allyCaptureBoard = [⟨0, 1⟩] ∧
    cellAt allyCaptureBoard 0 1 = some ⟨Color.C, .old⟩ ∧
    isEnemy Color.C Color.A = false := by
  decide

/-- Claim C3: the source is wrong.  On rootSelBoard with B (team 2, player
index 1) to move at depth 1, the orchestrator root loop keeps the raw
maximum of the child evaluations and selects a move worth -205 from team
1's viewpoint, although the enumerated move [(3, 4), (2, 1)] converts the
A piece and is worth -445 — strictly better for team 2.  The claim that
the selection inverts the scores for a team 2 mover fails. -/
theorem C3_root_selection_ignores_side :
    rootPickDepth1 (stdCfg 7) rootSelBoard 2 1 = (some [⟨2, 4⟩, ⟨2, 1⟩], some (-205)) ∧
    [⟨3, 4⟩, ⟨2, 1⟩] ∈ (getOrderedMoves (stdCfg 7) rootSelBoard 2 Color.B).map ScoredMove.move ∧
    evaluate (stdCfg 7) (applyMove (stdCfg 7) rootSelBoard [⟨3, 4⟩, ⟨2, 1⟩] Color.B) = -445 ∧
    (-445 : Int) < -205 := by
  decide

/-- Claim C4: the source is wrong.  finalBestMove of the onmessage handler
starts as null and is only assigned after a depth completes with no
deadline hit; when the deadline fires during depth 1 the reply is null even
though root moves exist, not the first root move the claim (and the spec)
promise. -/
theorem C4_timeout_depth1_returns_null (cfg : Config) (b : Board)
    (turnCount playerIndex : Nat) (expired : Nat → Bool)
    (hmoves : getOrderedMoves cfg b turnCount (colorOfIndex playerIndex) ≠ [])
    (hexp : expired 1 = true) :
    orchestrateDepth1 cfg b turnCount playerIndex expired = none := by
  unfold orchestrateDepth1
  cases hrm : getOrderedMoves cfg b turnCount (colorOfIndex playerIndex) with
  | nil => exact absurd hrm hmoves
  | cons mo rest =>
    simp only [hrm, List.isEmpty_cons, Bool.false_eq_true, if_false, rootLoop, hexp, if_true]

/-- Witness for C4: the empty 5 by 5 board has the single root move
[(2, 2)] for player index 1 on turn 1, and a deadline that has already
passed after the first job makes the handler reply null. -/
theorem C4_timeout_depth1_returns_null_witness :
    getOrderedMoves (stdCfg 5) (mkBoard 5 []) 1 (colorOfIndex 1) ≠ [] ∧
    orchestrateDepth1 (stdCfg 5) (mkBoard 5 []) 1 1 (fun _ => true) = none :=
  ⟨by decide, C4_timeout_depth1_returns_null (stdCfg 5) (mkBoard 5 []) 1 1 (fun _ => true)
    (by decide) rfl⟩

/-- Claim C5 counterexample: on convCountBoard the enumerated double move
[(2, 3), (4, 6)] is annotated 2 by getConversionMoves (its counts are taken
on the board with both placements present but no recoloring applied), while
actually applying the move converts 4 cells — the first placement recolors
(4, 3) to A, which then closes the second placement's line.  The claim that
the annotation is the conversion total of the fully applied move is false. -/
theorem C5_annotation_differs_from_applied :
    (⟨[⟨2, 3⟩, ⟨4, 6⟩], 2⟩ : ConvMove) ∈ getConversionMoves (stdCfg 7) convCountBoard 2 Color.A ∧
    (⟨[⟨2, 3⟩, ⟨4, 6⟩], 4⟩ : ConvMove) ∉ getConversionMoves (stdCfg 7) convCountBoard 2 Color.A ∧
    conversionsWhenApplied (stdCfg 7) convCountBoard [⟨2, 3⟩, ⟨4, 6⟩] Color.A = 4 ∧
    (2 : Nat) ≠ 4 := by
  decide

/-- Claim C6 counterexample: on doubleWinBoard both teams hold a winning
connection; checkWinCondition tests colors in the order A, B, C, D, so both
the board and its team swap evaluate to plus WIN_SCORE and antisymmetry
fails. -/
theorem C6_double_winner_breaks_antisymmetry :
    evaluate (stdCfg 4) doubleWinBoard = 100000 ∧
    evaluate (stdCfg 4) (swapTeams doubleWinBoard) = 100000 ∧
    evaluate (stdCfg 4) (swapTeams doubleWinBoard) ≠ -evaluate (stdCfg 4) doubleWinBoard := by
  decide

/-- Claim C7 counterexample: with boardSize 3 the center square (1, 1) is
classified preborder (its row index is 1), not interior, and it is not a
legal first placement on the empty board — isValidPlacement returns false,
so both halves of the claim fail. -/
theorem C7_center_preborder_and_illegal :
    getSquexType (stdCfg 3) 1 1 = SquexType.preborder ∧
    isValidPlacement (stdCfg 3) 1 1 (mkBoard 3 []) [] = false := by
  decide

/-- Claim C7 amended: with boardSize 3 no square at all is interior, the
center is preborder, the empty board admits no legal placement anywhere,
and the move generator returns no opening move. -/
theorem C7_no_interior_no_opening :
    (∀ p ∈ allPositions (stdCfg 3), getSquexType (stdCfg 3) p.r p.c ≠ SquexType.interior) ∧
    getSquexType (stdCfg 3) 1 1 = SquexType.preborder ∧
    (∀ p ∈ allPositions (stdCfg 3), isValidPlacement (stdCfg 3) p.r p.c (mkBoard 3 []) [] = false) ∧
    getOrderedMoves (stdCfg 3) (mkBoard 3 []) 1 Color.A = [] := by
  decide

theorem Pos_eq_mk_iff (p : Pos) (r c : Nat) : p = ⟨r, c⟩ ↔ p.r = r ∧ p.c = c := by
  cases p; simp [Pos.mk.injEq]

theorem cellAt_eq_rowAt (b : Board) (r c : Nat) : cellAt b r c = ((rowAt b r)[c]?).join := by
  unfold cellAt rowAt
  cases b[r]? <;> simp

theorem cellAtI_eq_some {cfg : Config} {b : Board} {r c : Int} {pc : Piece}
    (h : cellAtI cfg b r c = some pc) :
    cellAt b r.toNat c.toNat = some pc ∧ isValid cfg r c = true := by
  unfold cellAtI at h
  by_cases hv : isValid cfg r c = true
  · rw [if_pos hv] at h; exact ⟨h, hv⟩
  · rw [if_neg hv] at h; exact absurd h (by simp)

theorem cellAt_of_not_inBounds {b : Board} {r c : Nat} (h : ¬inBounds b ⟨r, c⟩) :
    cellAt b r c = none := by
  rw [cellAt_eq_rowAt]
  unfold inBounds at h
  push_neg at h
  by_cases hr : r < b.length
  · have hc := h hr
    rw [List.getElem?_eq_none (Nat.le_of_not_lt (by simpa using hc))]
    rfl
  · have : rowAt b r = [] := by
      unfold rowAt
      rw [List.getElem?_eq_none (Nat.le_of_not_lt hr)]
      rfl
    rw [this]
    rfl

theorem length_setCell (b : Board) (p : Pos) (v : Cell) : (setCell b p v).length = b.length :=
  List.length_set ..

theorem rowAt_setCell (b : Board) (p : Pos) (v : Cell) (r : Nat) :
    rowAt (setCell b p v) r =
      if p.r = r ∧ p.r < b.length then (rowAt b p.r).set p.c v else rowAt b r := by
  unfold setCell rowAt
  rw [List.getElem?_set]
  by_cases h : p.r = r
  · subst h
    by_cases hl : p.r < b.length
    · simp [hl]
    · simp [hl, List.getElem?_eq_none (Nat.le_of_not_lt hl)]
  · simp [h]

theorem inBounds_setCell (b : Board) (p : Pos) (v : Cell) (q : Pos) :
    inBounds (setCell b p v) q ↔ inBounds b q := by
  unfold inBounds
  rw [length_setCell, rowAt_setCell]
  by_cases h : p.r = q.r ∧ p.r < b.length
  · rw [if_pos h, List.length_set, h.1]
  · rw [if_neg h]

theorem cellAt_setCell (b : Board) (p : Pos) (v : Cell) (r c : Nat) :
    cellAt (setCell b p v) r c =
      if p.r = r ∧ p.c = c ∧ inBounds b p then v else cellAt b r c := by
  rw [cellAt_eq_rowAt, cellAt_eq_rowAt, rowAt_setCell]
  by_cases h : p.r = r ∧ p.r < b.length
  · rw [if_pos h]
    obtain ⟨hr, hl⟩ := h
    subst hr
    rw [List.getElem?_set]
    by_cases hc : p.c = c
    · subst hc
      by_cases hcl : p.c < (rowAt b p.r).length
      · rw [if_pos rfl, if_pos hcl, if_pos ⟨rfl, rfl, hl, hcl⟩]
        rfl
      · rw [if_pos rfl, if_neg hcl,
          if_neg (by rintro ⟨-, -, -, h4⟩; exact hcl h4),
          List.getElem?_eq_none (Nat.le_of_not_lt hcl)]
    · rw [if_neg hc, if_neg (by rintro ⟨-, h2, -⟩; exact hc h2)]
  · rw [if_neg h]
    rw [if_neg (by rintro ⟨h1, -, h3, -⟩; exact h ⟨h1, h3⟩)]

theorem length_mapRowIdx (f : Nat → Cell → Cell) (j : Nat) (row : List Cell) :
    (mapRowIdx f j row).length = row.length := by
  induction row generalizing j with
  | nil => rfl
  | cons x xs ih => simpa [mapRowIdx] using ih (j + 1)

theorem getElem?_mapRowIdx (f : Nat → Cell → Cell) :
    ∀ (j c : Nat) (row : List Cell), (mapRowIdx f j row)[c]? = (row[c]?).map (f (j + c))
  | _, _, [] => by simp [mapRowIdx]
  | j, 0, x :: xs => by simp [mapRowIdx]
  | j, c + 1, x :: xs => by
    simpa [mapRowIdx, Nat.add_comm, Nat.add_assoc, Nat.add_left_comm]
      using getElem?_mapRowIdx f (j + 1) c xs

theorem length_mapBoardIdx (f : Nat → Nat → Cell → Cell) :
    ∀ (i : Nat) (b : Board), (mapBoardIdx f i b).length = b.length
  | _, [] => rfl
  | i, row :: rest => by simpa [mapBoardIdx] using length_mapBoardIdx f (i + 1) rest

theorem getElem?_mapBoardIdx (f : Nat → Nat → Cell → Cell) :
    ∀ (i r : Nat) (b : Board),
      (mapBoardIdx f i b)[r]? = (b[r]?).map (fun row => mapRowIdx (f (i + r)) 0 row)
  | _, _, [] => by simp [mapBoardIdx]
  | i, 0, row :: rest => by simp [mapBoardIdx]
  | i, r + 1, row :: rest => by
    simpa [mapBoardIdx, Nat.add_comm, Nat.add_assoc, Nat.add_left_comm]
      using getElem?_mapBoardIdx f (i + 1) r rest

theorem cellAt_ageBoard (cfg : Config) (playerColor : Color) (b : Board) (r c : Nat) :
    cellAt (ageBoard cfg playerColor b) r c = ageCell cfg playerColor r c (cellAt b r c) := by
  unfold ageBoard cellAt
  rw [getElem?_mapBoardIdx]
  cases b[r]? with
  | none => rfl
  | some row =>
    simp only [Option.map_some', Option.some_bind, Nat.zero_add]
    rw [getElem?_mapRowIdx]
    cases row[c]? with
    | none => rfl
    | some cell => simp [Nat.zero_add]

theorem rowAt_ageBoard_length (cfg : Config) (playerColor : Color) (b : Board) (r : Nat) :
    (rowAt (ageBoard cfg playerColor b) r).length = (rowAt b r).length := by
  unfold ageBoard rowAt
  rw [getElem?_mapBoardIdx]
  cases b[r]? with
  | none => rfl
  | some row => simp [length_mapRowIdx]

theorem inBounds_ageBoard (cfg : Config) (playerColor : Color) (b : Board) (p : Pos) :
    inBounds (ageBoard cfg playerColor b) p ↔ inBounds b p := by
  unfold inBounds
  rw [rowAt_ageBoard_length cfg playerColor b p.r]
  unfold ageBoard
  rw [length_mapBoardIdx]

theorem inBounds_placeAll (b : Board) (m : List Pos) (playerColor : Color) (q : Pos) :
    inBounds (placeAll b m playerColor) q ↔ inBounds b q := by
  induction m generalizing b with
  | nil => exact Iff.rfl
  | cons p m ih =>
    unfold placeAll
    rw [List.foldl_cons]
    exact (ih _).trans (inBounds_setCell ..)

theorem cellAt_placeAll (b : Board) (m : List Pos) (playerColor : Color) (r c : Nat)
    (hin : ∀ p ∈ m, inBounds b p) :
    cellAt (placeAll b m playerColor) r c =
      if (⟨r, c⟩ : Pos) ∈ m then some ⟨playerColor, .new⟩ else cellAt b r c := by
  induction m generalizing b with
  | nil => simp [placeAll]
  | cons p m ih =>
    unfold placeAll
    rw [List.foldl_cons]
    have hin' : ∀ q ∈ m, inBounds (setCell b p (some ⟨playerColor, Posture.new⟩)) q :=
      fun q hq => (inBounds_setCell ..).mpr (hin q (List.mem_cons_of_mem _ hq))
    rw [show (List.foldl (fun bb p => setCell bb p (some ⟨playerColor, Posture.new⟩))
        (setCell b p (some ⟨playerColor, Posture.new⟩)) m) =
        placeAll (setCell b p (some ⟨playerColor, Posture.new⟩)) m playerColor from rfl,
      ih _ hin', cellAt_setCell]
    by_cases hm : (⟨r, c⟩ : Pos) ∈ m
    · simp [hm]
    · by_cases hp : p = ⟨r, c⟩
      · have hb : inBounds b p := hin p (List.mem_cons_self ..)
        have hrc := (Pos_eq_mk_iff p r c).mp hp
        rw [if_neg hm, if_pos ⟨hrc.1, hrc.2, hb⟩,
          if_pos (List.mem_cons.mpr (Or.inl hp.symm))]
      · rw [if_neg hm,
          if_neg (fun hc => hp ((Pos_eq_mk_iff p r c).mpr ⟨hc.1, hc.2.1⟩)),
          if_neg (fun hc => (List.mem_cons.mp hc).elim (fun h => hp h.symm) hm)]

theorem cellAt_recolorCell (b : Board) (q : Pos) (playerColor : Color) (r c : Nat) :
    cellAt (recolorCell b q playerColor) r c =
      if q.r = r ∧ q.c = c then
        (match cellAt b r c with
          | some pc => some ⟨playerColor, pc.posture⟩
          | none => none)
      else cellAt b r c := by
  unfold recolorCell
  rw [cellAt_setCell]
  by_cases h : q.r = r ∧ q.c = c
  · obtain ⟨h1, h2⟩ := h
    subst h1; subst h2
    by_cases hb : inBounds b q
    · simp [hb]
    · rw [if_neg (by rintro ⟨-, -, h3⟩; exact hb h3), if_pos ⟨rfl, rfl⟩]
      have : cellAt b q.r q.c = none := by
        have := cellAt_of_not_inBounds (b := b) (r := q.r) (c := q.c)
        exact this (by cases q; exact hb)
      rw [this]
    
  · rw [if_neg (by rintro ⟨h1, h2, -⟩; exact h ⟨h1, h2⟩), if_neg h]

theorem inBounds_recolorCell (b : Board) (q : Pos) (playerColor : Color) (p : Pos) :
    inBounds (recolorCell b q playerColor) p ↔ inBounds b p := by
  unfold recolorCell
  exact inBounds_setCell ..

theorem inBounds_applyConvList (b : Board) (l : List Pos) (playerColor : Color) (p : Pos) :
    inBounds (applyConvList b l playerColor) p ↔ inBounds b p := by
  induction l generalizing b with
  | nil => exact Iff.rfl
  | cons q l ih =>
    unfold applyConvList
    rw [List.foldl_cons]
    exact (ih _).trans (inBounds_recolorCell ..)

theorem foldl_append_eq {α β : Type} (f : β → List α) (l : List β) (init : List α) :
    l.foldl (fun acc d => acc ++ f d) init = init ++ (l.map f).flatten := by
  induction l generalizing init with
  | nil => simp
  | cons d ds ih => simp [List.foldl_cons, ih]

theorem convExtend_mem_old {cfg : Config} {b : Board} {color lineColor : Color} {dr dc : Int}
    (hlc : lineColor ≠ color) :
    ∀ (fuel : Nat) (cr cc : Int) (captured : List Pos),
      (∀ q ∈ captured, ∃ pc, cellAt b q.r q.c = some pc ∧
        pc.posture = Posture.old ∧ pc.color ≠ color) →
      ∀ q ∈ convExtend cfg b color lineColor dr dc cr cc captured fuel,
        ∃ pc, cellAt b q.r q.c = some pc ∧ pc.posture = Posture.old ∧ pc.color ≠ color
  | 0, cr, cc, captured, hcap => by simp [convExtend]
  | fuel + 1, cr, cc, captured, hcap => by
    unfold convExtend
    cases hcell : cellAtI cfg b cr cc with
    | none => simp
    | some piece =>
      dsimp only
      by_cases h1 : piece.color = lineColor ∧ piece.posture = Posture.old
      · rw [if_pos h1]
        refine convExtend_mem_old hlc fuel (cr + dr) (cc + dc) _ ?_
        intro q hq
        rcases List.mem_append.mp hq with h | h
        · exact hcap q h
        · have hq' : q = (⟨cr.toNat, cc.toNat⟩ : Pos) := by simpa using h
          subst hq'
          exact ⟨piece, (cellAtI_eq_some hcell).1, h1.2, h1.1 ▸ hlc⟩
      · rw [if_neg h1]
        by_cases h2 : piece.color = color
        · rw [if_pos h2]; exact fun q hq => hcap q hq
        · rw [if_neg h2]; simp

theorem convDir_mem_old {cfg : Config} {b : Board} {color : Color} {r c : Nat} {d : Int × Int} :
    ∀ q ∈ convDir cfg b color r c d,
      ∃ pc, cellAt b q.r q.c = some pc ∧ pc.posture = Posture.old ∧ pc.color ≠ color := by
  unfold convDir
  dsimp only
  cases hcell : cellAtI cfg b ((r : Int) + d.1) ((c : Int) + d.2) with
  | none => simp
  | some piece =>
    dsimp only
    by_cases h1 : piece.posture = Posture.new ∨ piece.color = color
    · rw [if_pos h1]; simp
    · rw [if_neg h1]
      push_neg at h1
      have hold : piece.posture = Posture.old := by
        cases hp : piece.posture
        · exact absurd hp h1.1
        · rfl
      refine convExtend_mem_old h1.2 _ _ _ _ ?_
      intro q hq
      have hq' : q = (⟨((r : Int) + d.1).toNat, ((c : Int) + d.2).toNat⟩ : Pos) := by
        simpa using hq
      subst hq'
      exact ⟨piece, (cellAtI_eq_some hcell).1, hold, h1.2⟩

theorem getConversions_mem_old {cfg : Config} {b : Board} {color : Color} {r c : Nat} :
    ∀ q ∈ getConversions cfg r c color b,
      ∃ pc, cellAt b q.r q.c = some pc ∧ pc.posture = Posture.old ∧ pc.color ≠ color := by
  unfold getConversions
  intro q hq
  rw [foldl_append_eq] at hq
  simp only [List.nil_append, List.mem_flatten, List.mem_map] at hq
  obtain ⟨l, ⟨d, -, rfl⟩, hql⟩ := hq
  exact convDir_mem_old q hql

/-- Claim C2 amended: every cell returned by getConversions holds an old
piece whose color differs from the moving color K — but that color may be
K's team ally, not only an enemy, because the scan compares colors with K
alone and never consults the alliance. -/
theorem C2_conversions_old_and_not_player (cfg : Config) (b : Board) (r c : Nat) (color : Color)
    (q : Pos) (hq : q ∈ getConversions cfg r c color b) :
    ∃ pc, cellAt b q.r q.c = some pc ∧ pc.posture = Posture.old ∧ pc.color ≠ color :=
  getConversions_mem_old q hq

/-- Witness for the amended C2 statement at the ally-capture board. -/
theorem C2_conversions_old_and_not_player_witness :
    (⟨0, 1⟩ : Pos) ∈ getConversions (stdCfg 3) 0 0 Color.A allyCaptureBoard ∧
    ∃ pc, cellAt allyCaptureBoard 0 1 = some pc ∧
      pc.posture = Posture.old ∧ pc.color ≠ Color.A :=
  ⟨by decide, C2_conversions_old_and_not_player (stdCfg 3) allyCaptureBoard 0 0 Color.A
    ⟨0, 1⟩ (by decide)⟩

theorem set_self_of_getElem? {α : Type} (l : List α) :
    ∀ (i : Nat) (x : α), l[i]? = some x → l.set i x = l := by
  induction l with
  | nil => intro i x h; simp at h
  | cons a t ih =>
    intro i x h
    cases i with
    | zero =>
      have : x = a := by simpa using h.symm
      subst this
      rfl
    | succ i =>
      have := ih i x (by simpa using h)
      simp [List.set_cons_succ, this]

theorem setCell_of_not_inBounds (b : Board) (p : Pos) (v : Cell) (h : ¬inBounds b p) :
    setCell b p v = b := by
  unfold inBounds at h
  push_neg at h
  by_cases hr : p.r < b.length
  · have hc := Nat.le_of_not_lt (by simpa using h hr)
    unfold setCell
    rw [List.set_eq_of_length_le (l := rowAt b p.r) hc]
    apply set_self_of_getElem?
    unfold rowAt
    cases hb : b[p.r]? with
    | none => exact absurd (List.getElem?_eq_none_iff.mp hb) (Nat.not_le_of_lt hr)
    | some row => rfl
  · unfold setCell
    exact List.set_eq_of_length_le (Nat.le_of_not_lt hr)

theorem countOccupied_cons (row : List Cell) (rest : Board) :
    countOccupied (row :: rest) = row.countP (fun cell => cell.isSome) + countOccupied rest := by
  simp [countOccupied, Nat.add_comm]

theorem countP_set_add_one (row : List Cell) :
    ∀ (c : Nat) (x : Piece), row[c]? = some none →
      (row.set c (some x)).countP (fun cell => cell.isSome) =
        row.countP (fun cell => cell.isSome) + 1 := by
  induction row with
  | nil => intro c x h; simp at h
  | cons a t ih =>
    intro c x h
    cases c with
    | zero =>
      have : a = none := by simpa using h
      subst this
      simp [List.countP_cons]
    | succ c =>
      have := ih c x (by simpa using h)
      simp only [List.set_cons_succ, List.countP_cons, this]
      omega

theorem countP_set_same_isSome (row : List Cell) :
    ∀ (c : Nat) (v : Cell), (∀ cell, row[c]? = some cell → cell.isSome = v.isSome) →
      (row.set c v).countP (fun cell => cell.isSome) = row.countP (fun cell => cell.isSome) := by
  induction row with
  | nil => intro c v _; rfl
  | cons a t ih =>
    intro c v h
    cases c with
    | zero =>
      have ha : a.isSome = v.isSome := h a (by simp)
      simp [List.countP_cons, ha]
    | succ c =>
      have := ih c v (fun cell hc => h cell (by simpa using hc))
      simp [List.set_cons_succ, List.countP_cons, this]

theorem setCell_cons_succ (row : List Cell) (rest : Board) (r c : Nat) (v : Cell) :
    setCell (row :: rest) ⟨r + 1, c⟩ v = row :: setCell rest ⟨r, c⟩ v := by
  unfold setCell rowAt
  simp

theorem setCell_cons_zero (row : List Cell) (rest : Board) (c : Nat) (v : Cell) :
    setCell (row :: rest) ⟨0, c⟩ v = (row.set c v) :: rest := by
  unfold setCell rowAt
  simp

theorem countOccupied_setCell_new (b : Board) (p : Pos) (x : Piece) (hb : inBounds b p)
    (he : cellAt b p.r p.c = none) :
    countOccupied (setCell b p (some x)) = countOccupied b + 1 := by
  obtain ⟨r, c⟩ := p
  induction b generalizing r with
  | nil => exact absurd hb.1 (by simp)
  | cons row rest ih =>
    cases r with
    | zero =>
      have hc : c < row.length := by simpa [inBounds, rowAt] using hb.2
      have hrow : row[c]? = some none := by
        cases hrc : row[c]? with
        | none => exact absurd (List.getElem?_eq_none_iff.mp hrc) (Nat.not_le_of_lt hc)
        | some cell =>
          have hcell : cell = none := by simpa [cellAt, hrc] using he
          rw [hcell]
      rw [setCell_cons_zero, countOccupied_cons, countOccupied_cons,
        countP_set_add_one row c x hrow]
      omega
    | succ r =>
      have hb' : inBounds rest ⟨r, c⟩ := by
        constructor
        · have := hb.1; simpa using this
        · have := hb.2; simpa [rowAt] using this
      have he' : cellAt rest r c = none := by simpa [cellAt] using he
      rw [setCell_cons_succ, countOccupied_cons, countOccupied_cons, ih r hb' he']
      omega

theorem countOccupied_setCell_pres (b : Board) (p : Pos) (v : Cell)
    (hpres : (cellAt b p.r p.c).isSome = v.isSome) :
    countOccupied (setCell b p v) = countOccupied b := by
  by_cases hb : inBounds b p
  · obtain ⟨r, c⟩ := p
    induction b generalizing r with
    | nil => exact absurd hb.1 (by simp)
    | cons row rest ih =>
      cases r with
      | zero =>
        have hc : c < row.length := by simpa [inBounds, rowAt] using hb.2
        rw [setCell_cons_zero, countOccupied_cons, countOccupied_cons,
          countP_set_same_isSome row c v ?_]
        intro cell hcell
        have : cellAt (row :: rest) 0 c = cell := by simp [cellAt, hcell]
        rw [← this]
        exact hpres
      | succ r =>
        have hb' : inBounds rest ⟨r, c⟩ := by
          constructor
          · have := hb.1; simpa using this
          · have := hb.2; simpa [rowAt] using this
        have hpres' : (cellAt rest r c).isSome = v.isSome := by
          rw [← hpres]
          simp [cellAt]
        rw [setCell_cons_succ, countOccupied_cons, countOccupied_cons, ih r hpres' hb']
  · rw [setCell_of_not_inBounds b p v hb]

theorem countOccupied_recolorCell (b : Board) (q : Pos) (playerColor : Color) :
    countOccupied (recolorCell b q playerColor) = countOccupied b := by
  unfold recolorCell
  apply countOccupied_setCell_pres
  cases h : cellAt b q.r q.c <;> simp [h]

theorem countOccupied_applyConvList (b : Board) (l : List Pos) (playerColor : Color) :
    countOccupied (applyConvList b l playerColor) = countOccupied b := by
  induction l generalizing b with
  | nil => rfl
  | cons q l ih =>
    unfold applyConvList
    rw [List.foldl_cons]
    exact (ih _).trans (countOccupied_recolorCell ..)

theorem countP_mapRowIdx_isSome (f : Nat → Cell → Cell)
    (hf : ∀ j cell, (f j cell).isSome = cell.isSome) :
    ∀ (j : Nat) (row : List Cell),
      (mapRowIdx f j row).countP (fun cell => cell.isSome) =
        row.countP (fun cell => cell.isSome) := by
  intro j row
  induction row generalizing j with
  | nil => rfl
  | cons a t ih => simp [mapRowIdx, List.countP_cons, hf, ih]

theorem countOccupied_mapBoardIdx_isSome (f : Nat → Nat → Cell → Cell)
    (hf : ∀ i j cell, (f i j cell).isSome = cell.isSome) :
    ∀ (i : Nat) (b : Board), countOccupied (mapBoardIdx f i b) = countOccupied b := by
  intro i b
  induction b generalizing i with
  | nil => rfl
  | cons row rest ih =>
    show countOccupied (mapRowIdx (f i) 0 row :: mapBoardIdx f (i + 1) rest) = _
    rw [countOccupied_cons, countOccupied_cons, ih (i + 1),
      countP_mapRowIdx_isSome (f i) (hf i) 0 row]

theorem countOccupied_ageBoard (cfg : Config) (playerColor : Color) (b : Board) :
    countOccupied (ageBoard cfg playerColor b) = countOccupied b := by
  apply countOccupied_mapBoardIdx_isSome
  intro i j cell
  cases cell with
  | none => rfl
  | some pc =>
    dsimp only [ageCell]
    by_cases h : i < cfg.boardSize ∧ j < cfg.boardSize ∧ pc.color = playerColor ∧
      pc.posture = Posture.new
    · rw [if_pos h]
      rfl
    · rw [if_neg h]

theorem countOccupied_placeAll (b : Board) (m : List Pos) (playerColor : Color)
    (hnd : m.Nodup) (hin : ∀ p ∈ m, inBounds b p)
    (he : ∀ p ∈ m, cellAt b p.r p.c = none) :
    countOccupied (placeAll b m playerColor) = countOccupied b + m.length := by
  induction m generalizing b with
  | nil => rfl
  | cons p m ih =>
    unfold placeAll
    rw [List.foldl_cons]
    have hstep : countOccupied (setCell b p (some ⟨playerColor, Posture.new⟩)) =
        countOccupied b + 1 :=
      countOccupied_setCell_new b p _ (hin p (List.mem_cons_self ..))
        (he p (List.mem_cons_self ..))
    have hrest := ih (setCell b p (some ⟨playerColor, Posture.new⟩))
      (List.Nodup.of_cons hnd)
      (fun q hq => (inBounds_setCell ..).mpr (hin q (List.mem_cons_of_mem _ hq)))
      (fun q hq => by
        rw [cellAt_setCell]
        rw [if_neg ?_]
        · exact he q (List.mem_cons_of_mem _ hq)
        · rintro ⟨h1, h2, -⟩
          have : p = q := by
            cases p; cases q
            simp_all
          subst this
          exact (List.nodup_cons.mp hnd).1 hq)
    show countOccupied (placeAll (setCell b p (some ⟨playerColor, Posture.new⟩)) m playerColor) = _
    rw [hrest, hstep]
    simp only [List.length_cons]
    omega

theorem countOccupied_convFold (cfg : Config) (playerColor : Color) :
    ∀ (ps : List Pos) (bb : Board),
      countOccupied (ps.foldl (fun bb p =>
        applyConvList bb (getConversions cfg p.r p.c playerColor bb) playerColor) bb) =
        countOccupied bb := by
  intro ps
  induction ps with
  | nil => intro bb; rfl
  | cons p ps ih =>
    intro bb
    rw [List.foldl_cons]
    exact (ih _).trans (countOccupied_applyConvList ..)

/-- Claim C9 and C8 share the in-window bound: a placement names an actual
cell of the board. -/
theorem cellAt_ageBoard_none_iff (cfg : Config) (playerColor : Color) (b : Board) (r c : Nat) :
    cellAt (ageBoard cfg playerColor b) r c = none ↔ cellAt b r c = none := by
  rw [cellAt_ageBoard]
  cases h : cellAt b r c with
  | none => simp [ageCell]
  | some pc =>
    dsimp only [ageCell]
    by_cases hcond : r < cfg.boardSize ∧ c < cfg.boardSize ∧ pc.color = playerColor ∧
      pc.posture = Posture.new
    · rw [if_pos hcond]
      simp
    · rw [if_neg hcond]

/-- Claim C8: applyMove changes the number of occupied cells by exactly the
number of placements.  The hypotheses are the ones the claim states: the
placements are pairwise distinct, unoccupied, actual cells of the board.
Aging and conversion recoloring preserve occupancy; each placement fills
one empty cell. -/
theorem C8_applyMove_occupied_count (cfg : Config) (b : Board) (m : List Pos)
    (playerColor : Color) (hnd : m.Nodup) (hin : ∀ p ∈ m, inBounds b p)
    (he : ∀ p ∈ m, cellAt b p.r p.c = none) :
    countOccupied (applyMove cfg b m playerColor) = countOccupied b + m.length := by
  unfold applyMove
  rw [countOccupied_convFold, countOccupied_placeAll _ _ _ hnd
    (fun p hp => (inBounds_ageBoard ..).mpr (hin p hp))
    (fun p hp => (cellAt_ageBoard_none_iff ..).mpr (he p hp)),
    countOccupied_ageBoard]

/-- Witness for C8: placing one pawn at (0, 0) of witnessBoard (which holds
three pieces, one of which gets converted and one aged) leaves exactly four
occupied cells. -/
theorem C8_applyMove_occupied_count_witness :
    ([⟨0, 0⟩] : List Pos).Nodup ∧ (∀ p ∈ ([⟨0, 0⟩] : List Pos), inBounds witnessBoard p) ∧
    (∀ p ∈ ([⟨0, 0⟩] : List Pos), cellAt witnessBoard p.r p.c = none) ∧
    countOccupied (applyMove (stdCfg 3) witnessBoard [⟨0, 0⟩] Color.A) =
      countOccupied witnessBoard + 1 :=
  ⟨by decide, by decide, by decide,
    C8_applyMove_occupied_count (stdCfg 3) witnessBoard [⟨0, 0⟩] Color.A
      (by decide) (by decide) (by decide)⟩

theorem ageCell_eq_plainAge (cfg : Config) (playerColor : Color) (r c : Nat) (cell : Cell)
    (hr : r < cfg.boardSize) (hc : c < cfg.boardSize) :
    ageCell cfg playerColor r c cell = plainAge playerColor cell := by
  cases cell with
  | none => rfl
  | some pc =>
    dsimp only [ageCell, plainAge]
    by_cases h : pc.color = playerColor ∧ pc.posture = Posture.new
    · rw [if_pos ⟨hr, hc, h.1, h.2⟩, if_pos h]
    · rw [if_neg (by rintro ⟨-, -, h1, h2⟩; exact h ⟨h1, h2⟩), if_neg h]

theorem applyInv_placed (cfg : Config) (b : Board) (m : List Pos) (playerColor : Color)
    (hin : ∀ p ∈ m, inBounds b p) :
    applyInv cfg b m playerColor (placeAll (ageBoard cfg playerColor b) m playerColor) := by
  intro r c hr hc
  have hin' : ∀ p ∈ m, inBounds (ageBoard cfg playerColor b) p :=
    fun p hp => (inBounds_ageBoard ..).mpr (hin p hp)
  rw [cellAt_placeAll _ _ _ _ _ hin']
  constructor
  · intro hm
    rw [if_pos hm]
  · intro hnm
    rw [if_neg hnm]
    left
    rw [cellAt_ageBoard, ageCell_eq_plainAge cfg playerColor r c _ hr hc]

theorem applyInv_recolor (cfg : Config) (b : Board) (m : List Pos) (playerColor : Color)
    (bb : Board) (q : Pos) (hInv : applyInv cfg b m playerColor bb)
    (hq : cellAt bb q.r q.c = none ∨
      ∃ pc, cellAt bb q.r q.c = some pc ∧ pc.posture = Posture.old) :
    applyInv cfg b m playerColor (recolorCell bb q playerColor) := by
  intro r c hr hc
  have H := hInv r c hr hc
  rw [cellAt_recolorCell]
  by_cases hpos : q.r = r ∧ q.c = c
  · rw [if_pos hpos]
    have hq' : cellAt bb r c = none ∨
        ∃ pc, cellAt bb r c = some pc ∧ pc.posture = Posture.old := by
      rwa [hpos.1, hpos.2] at hq
    cases hcur : cellAt bb r c with
    | none =>
      constructor
      · intro hm
        have := H.1 hm
        rw [hcur] at this
        exact absurd this (by simp)
      · intro hnm
        rcases H.2 hnm with hL | hR
        · left
          rw [hcur] at hL
          exact hL
        · obtain ⟨pc0, -, -, -, hbb⟩ := hR
          rw [hcur] at hbb
          exact absurd hbb (by simp)
    | some pc =>
      have hold : pc.posture = Posture.old := by
        rcases hq' with h | ⟨pc1, h1, h2⟩
        · rw [hcur] at h; exact absurd h (by simp)
        · rw [hcur] at h1
          have : pc1 = pc := by simpa using h1.symm
          exact this ▸ h2
      constructor
      · intro hm
        have hnew := H.1 hm
        rw [hcur] at hnew
        have : pc = ⟨playerColor, Posture.new⟩ := by simpa using hnew
        rw [this] at hold
        exact absurd hold (by simp)
      · intro hnm
        rcases H.2 hnm with hL | hR
        · rw [hcur] at hL
          cases horig : cellAt b r c with
          | none =>
            rw [horig] at hL
            exact absurd hL (by simp [plainAge])
          | some pb =>
            rw [horig] at hL
            dsimp only [plainAge] at hL
            by_cases hb1 : pb.color = playerColor ∧ pb.posture = Posture.new
            · rw [if_pos hb1] at hL
              have hpc : pc = ⟨playerColor, Posture.old⟩ := by simpa using hL
              left
              simp [plainAge, hb1, hpc]
            · rw [if_neg hb1] at hL
              have hpc : pc = pb := by simpa using hL
              have hpbold : pb.posture = Posture.old := hpc ▸ hold
              by_cases hbc : pb.color = playerColor
              · left
                have hpb : pb = ⟨playerColor, Posture.old⟩ := by
                  cases pb
                  exact congrArg₂ Piece.mk hbc hpbold
                rw [hpc, hpb]
                dsimp only [plainAge]
                rw [if_neg (by simp)]
              · right
                refine ⟨pb, rfl, hbc, hpbold, ?_⟩
                simp [hold]
        · obtain ⟨pc0, horig, hc0, hp0, hbb⟩ := hR
          rw [hcur] at hbb
          right
          refine ⟨pc0, horig, hc0, hp0, ?_⟩
          simp [hold]
  · rw [if_neg hpos]
    exact H

theorem applyInv_applyConvList (cfg : Config) (b : Board) (m : List Pos) (playerColor : Color) :
    ∀ (l : List Pos) (bb : Board), applyInv cfg b m playerColor bb →
      (∀ q ∈ l, cellAt bb q.r q.c = none ∨
        ∃ pc, cellAt bb q.r q.c = some pc ∧ pc.posture = Posture.old) →
      applyInv cfg b m playerColor (applyConvList bb l playerColor) := by
  intro l
  induction l with
  | nil => intro bb hInv _; exact hInv
  | cons q l ih =>
    intro bb hInv hl
    unfold applyConvList
    rw [List.foldl_cons]
    show applyInv cfg b m playerColor (applyConvList (recolorCell bb q playerColor) l playerColor)
    refine ih _ (applyInv_recolor cfg b m playerColor bb q hInv (hl q (List.mem_cons_self ..)))
      ?_
    intro q' hq'
    rw [cellAt_recolorCell]
    by_cases hpos : q.r = q'.r ∧ q.c = q'.c
    · rw [if_pos hpos]
      cases hcur : cellAt bb q'.r q'.c with
      | none => left; rfl
      | some pc =>
        rcases hl q' (List.mem_cons_of_mem _ hq') with h | ⟨pc1, h1, h2⟩
        · rw [hcur] at h
          exact absurd h (by simp)
        · rw [hcur] at h1
          have hpp : pc.posture = Posture.old := by
            have h3 : pc1 = pc := by simpa using h1.symm
            exact h3 ▸ h2
          right
          exact ⟨Piece.mk playerColor pc.posture, rfl, hpp⟩
    · rw [if_neg hpos]
      exact hl q' (List.mem_cons_of_mem _ hq')

theorem applyInv_convFold (cfg : Config) (b : Board) (m : List Pos) (playerColor : Color) :
    ∀ (ps : List Pos) (bb : Board), applyInv cfg b m playerColor bb →
      applyInv cfg b m playerColor (ps.foldl (fun bb p =>
        applyConvList bb (getConversions cfg p.r p.c playerColor bb) playerColor) bb) := by
  intro ps
  induction ps with
  | nil => intro bb hInv; exact hInv
  | cons p ps ih =>
    intro bb hInv
    rw [List.foldl_cons]
    refine ih _ (applyInv_applyConvList cfg b m playerColor _ bb hInv ?_)
    intro q hq
    obtain ⟨pc, hcell, hold, -⟩ := getConversions_mem_old q hq
    exact Or.inr ⟨pc, hcell, hold⟩

theorem applyInv_applyMove (cfg : Config) (b : Board) (m : List Pos) (playerColor : Color)
    (hin : ∀ p ∈ m, inBounds b p) :
    applyInv cfg b m playerColor (applyMove cfg b m playerColor) := by
  unfold applyMove
  exact applyInv_convFold cfg b m playerColor m _
    (applyInv_placed cfg b m playerColor hin)

/-- Claim C9: after applyMove with distinct placements inside the board
window, (1) every placement cell holds (K, new); (2) every other cell that
held (K, new) now holds (K, old); (3) every other cell of a color other
than K is unchanged or recolored to K with its posture kept (conversion
changes color only, and only of old pieces); (4) hence the (K, new) cells
are exactly the placement cells. -/
theorem C9_applyMove_posture_color (cfg : Config) (b : Board) (m : List Pos)
    (playerColor : Color) (_hnd : m.Nodup) (hin : ∀ p ∈ m, inBounds b p)
    (hsz : ∀ p ∈ m, p.r < cfg.boardSize ∧ p.c < cfg.boardSize) :
    (∀ p ∈ m, cellAt (applyMove cfg b m playerColor) p.r p.c =
      some ⟨playerColor, Posture.new⟩) ∧
    (∀ r c : Nat, r < cfg.boardSize → c < cfg.boardSize → (⟨r, c⟩ : Pos) ∉ m →
      cellAt b r c = some ⟨playerColor, Posture.new⟩ →
      cellAt (applyMove cfg b m playerColor) r c = some ⟨playerColor, Posture.old⟩) ∧
    (∀ (r c : Nat) (pc : Piece), r < cfg.boardSize → c < cfg.boardSize →
      (⟨r, c⟩ : Pos) ∉ m → cellAt b r c = some pc → pc.color ≠ playerColor →
      cellAt (applyMove cfg b m playerColor) r c = some pc ∨
        cellAt (applyMove cfg b m playerColor) r c = some ⟨playerColor, pc.posture⟩) ∧
    (∀ r c : Nat, r < cfg.boardSize → c < cfg.boardSize →
      (cellAt (applyMove cfg b m playerColor) r c = some ⟨playerColor, Posture.new⟩ ↔
        (⟨r, c⟩ : Pos) ∈ m)) := by
  have hInv := applyInv_applyMove cfg b m playerColor hin
  refine ⟨?_, ?_, ?_, ?_⟩
  · intro p hp
    have hp' : (⟨p.r, p.c⟩ : Pos) ∈ m := by
      have : (⟨p.r, p.c⟩ : Pos) = p := by cases p; rfl
      rw [this]; exact hp
    exact (hInv p.r p.c (hsz p hp).1 (hsz p hp).2).1 hp'
  · intro r c hr hc hnm horig
    rcases (hInv r c hr hc).2 hnm with hL | ⟨pc0, h1, h2, -, -⟩
    · rw [horig] at hL
      dsimp only [plainAge] at hL
      rw [if_pos ⟨rfl, rfl⟩] at hL
      exact hL
    · rw [horig] at h1
      have : pc0 = ⟨playerColor, Posture.new⟩ := by simpa using h1.symm
      rw [this] at h2
      exact absurd rfl h2
  · intro r c pc hr hc hnm horig hcol
    rcases (hInv r c hr hc).2 hnm with hL | ⟨pc0, h1, -, h3, h4⟩
    · left
      rw [horig] at hL
      dsimp only [plainAge] at hL
      rw [if_neg (by rintro ⟨h1, -⟩; exact hcol h1)] at hL
      exact hL
    · right
      rw [horig] at h1
      have : pc0 = pc := by simpa using h1.symm
      subst this
      rw [h3]
      exact h4
  · intro r c hr hc
    constructor
    · intro heq
      by_cases hm : (⟨r, c⟩ : Pos) ∈ m
      · exact hm
      · exfalso
        rcases (hInv r c hr hc).2 hm with hL | ⟨pc0, -, -, -, h4⟩
        · rw [heq] at hL
          cases horig : cellAt b r c with
          | none =>
            rw [horig] at hL
            exact absurd hL (by simp [plainAge])
          | some pb =>
            rw [horig] at hL
            dsimp only [plainAge] at hL
            by_cases hb1 : pb.color = playerColor ∧ pb.posture = Posture.new
            · rw [if_pos hb1] at hL
              simp at hL
            · rw [if_neg hb1] at hL
              have : pb = ⟨playerColor, Posture.new⟩ := by simpa using hL.symm
              rw [this] at hb1
              exact hb1 ⟨rfl, rfl⟩
        · rw [heq] at h4
          simp at h4
    · intro hm
      exact (hInv r c hr hc).1 hm

/-- Witness for C9 on witnessBoard: placing A at (0, 0) converts the old B
at (0, 1) (color only), ages the new A at (2, 2), and leaves (0, 0) as the
single new A cell. -/
theorem C9_applyMove_posture_color_witness :
    ([⟨0, 0⟩] : List Pos).Nodup ∧ (∀ p ∈ ([⟨0, 0⟩] : List Pos), inBounds witnessBoard p) ∧
    (∀ p ∈ ([⟨0, 0⟩] : List Pos), p.r < (stdCfg 3).boardSize ∧ p.c < (stdCfg 3).boardSize) ∧
    (∀ p ∈ ([⟨0, 0⟩] : List Pos),
      cellAt (applyMove (stdCfg 3) witnessBoard [⟨0, 0⟩] Color.A) p.r p.c =
        some ⟨Color.A, Posture.new⟩) ∧
    (∀ r c : Nat, r < (stdCfg 3).boardSize → c < (stdCfg 3).boardSize →
      (cellAt (applyMove (stdCfg 3) witnessBoard [⟨0, 0⟩] Color.A) r c =
          some ⟨Color.A, Posture.new⟩ ↔ (⟨r, c⟩ : Pos) ∈ ([⟨0, 0⟩] : List Pos))) :=
  ⟨by decide, by decide, by decide,
    (C9_applyMove_posture_color (stdCfg 3) witnessBoard [⟨0, 0⟩] Color.A
      (by decide) (by decide) (by decide)).1,
    (C9_applyMove_posture_color (stdCfg 3) witnessBoard [⟨0, 0⟩] Color.A
      (by decide) (by decide) (by decide)).2.2.2⟩

theorem insertByDesc_perm {α : Type} (key : α → Int) (x : α) (l : List α) :
    (insertByDesc key x l).Perm (x :: l) := by
  induction l with
  | nil => exact List.Perm.refl _
  | cons y ys ih =>
    unfold insertByDesc
    by_cases h : key x > key y
    · rw [if_pos h]
    · rw [if_neg h]
      exact (List.Perm.cons y ih).trans (List.Perm.swap x y ys)

theorem sortByDesc_perm_aux {α : Type} (key : α → Int) :
    ∀ (l acc : List α), (l.foldl (fun a x => insertByDesc key x a) acc).Perm (acc ++ l)
  | [], acc => by simp
  | x :: xs, acc => by
    rw [List.foldl_cons]
    refine (sortByDesc_perm_aux key xs (insertByDesc key x acc)).trans ?_
    refine (List.Perm.append_right xs (insertByDesc_perm key x acc)).trans ?_
    simpa using List.perm_middle.symm

theorem sortByDesc_perm {α : Type} (key : α → Int) (l : List α) :
    (sortByDesc key l).Perm l := by
  simpa using sortByDesc_perm_aux key l []

theorem insertByDesc_pairwise {α : Type} (key : α → Int) (x : α) (l : List α)
    (h : l.Pairwise (fun a b => key b ≤ key a)) :
    (insertByDesc key x l).Pairwise (fun a b => key b ≤ key a) := by
  induction l with
  | nil => simp [insertByDesc]
  | cons y ys ih =>
    unfold insertByDesc
    by_cases hxy : key x > key y
    · rw [if_pos hxy]
      refine List.Pairwise.cons ?_ h
      intro z hz
      rcases List.mem_cons.mp hz with rfl | hz
      · exact Int.le_of_lt hxy
      · exact Int.le_trans (List.rel_of_pairwise_cons h hz) (Int.le_of_lt hxy)
    · rw [if_neg hxy]
      refine List.Pairwise.cons ?_ (ih (List.Pairwise.of_cons h))
      intro z hz
      have hz' := (insertByDesc_perm key x ys).mem_iff.mp hz
      rcases List.mem_cons.mp hz' with rfl | hz'
      · exact Int.not_lt.mp hxy
      · exact List.rel_of_pairwise_cons h hz'

theorem sortByDesc_pairwise {α : Type} (key : α → Int) (l : List α) :
    (sortByDesc key l).Pairwise (fun a b => key b ≤ key a) := by
  unfold sortByDesc
  suffices h : ∀ (l acc : List α), acc.Pairwise (fun a b => key b ≤ key a) →
      (l.foldl (fun a x => insertByDesc key x a) acc).Pairwise (fun a b => key b ≤ key a) from
    h l [] (by simp)
  intro l
  induction l with
  | nil => intro acc hacc; exact hacc
  | cons x xs ih =>
    intro acc hacc
    rw [List.foldl_cons]
    exact ih _ (insertByDesc_pairwise key x acc hacc)

/-- Claim C5 amended: getConversionMoves returns exactly the enumerated
moves whose statically counted conversion total (all placements written,
no recoloring applied) is positive, annotated with that static total and
sorted by it descending.  The counterexample theorem shows this total can
differ from the conversions of the fully applied move, which is what the
original claim asserted. -/
theorem C5_conversion_moves_static_count (cfg : Config) (b : Board) (turnCount : Nat)
    (playerColor : Color) :
    (∀ mc ∈ getConversionMoves cfg b turnCount playerColor,
      (∃ mo ∈ getOrderedMoves cfg b turnCount playerColor, mo.move = mc.move) ∧
      mc.conversions = tempConvTotal cfg b mc.move playerColor ∧ 0 < mc.conversions) ∧
    (∀ mo ∈ getOrderedMoves cfg b turnCount playerColor,
      0 < tempConvTotal cfg b mo.move playerColor →
      (⟨mo.move, tempConvTotal cfg b mo.move playerColor⟩ : ConvMove) ∈
        getConversionMoves cfg b turnCount playerColor) ∧
    (getConversionMoves cfg b turnCount playerColor).Pairwise
      (fun x y => y.conversions ≤ x.conversions) := by
  refine ⟨?_, ?_, ?_⟩
  · intro mc hmc
    have hbase := (sortByDesc_perm (fun mc : ConvMove => (mc.conversions : Int)) _).mem_iff.mp hmc
    obtain ⟨mo, hmo, hf⟩ := List.mem_filterMap.mp hbase
    by_cases hn : 0 < tempConvTotal cfg b mo.move playerColor
    · rw [if_pos hn] at hf
      have hmc' : mc = ⟨mo.move, tempConvTotal cfg b mo.move playerColor⟩ := by
        simpa using hf.symm
      subst hmc'
      exact ⟨⟨mo, hmo, rfl⟩, rfl, hn⟩
    · rw [if_neg hn] at hf
      exact absurd hf (by simp)
  · intro mo hmo hn
    apply (sortByDesc_perm (fun mc : ConvMove => (mc.conversions : Int)) _).mem_iff.mpr
    apply List.mem_filterMap.mpr
    exact ⟨mo, hmo, by rw [if_pos hn]⟩
  · refine List.Pairwise.imp ?_
      (sortByDesc_pairwise (fun mc : ConvMove => (mc.conversions : Int)) _)
    intro a c h
    exact_mod_cast h

/-- Witness for the amended C5 statement at convCountBoard: the double
[(2, 3), (4, 6)] has static total 2 and appears with that annotation. -/
theorem C5_conversion_moves_static_count_witness :
    (⟨[⟨2, 3⟩, ⟨4, 6⟩], 2⟩ : ConvMove) ∈ getConversionMoves (stdCfg 7) convCountBoard 2 Color.A ∧
    ((2 : Nat) = tempConvTotal (stdCfg 7) convCountBoard [⟨2, 3⟩, ⟨4, 6⟩] Color.A ∧
      0 < (2 : Nat)) :=
  ⟨by decide,
    ((C5_conversion_moves_static_count (stdCfg 7) convCountBoard 2 Color.A).1
      ⟨[⟨2, 3⟩, ⟨4, 6⟩], 2⟩ (by decide)).2⟩

theorem swapColor_eq_iff (a b : Color) : swapColor a = swapColor b ↔ a = b := by
  cases a <;> cases b <;> decide

theorem swapTeam_eq_iff (a b : Team) : swapTeam a = swapTeam b ↔ a = b := by
  cases a <;> cases b <;> decide

theorem PLAYER_TEAMS_swapColor (k : Color) :
    PLAYER_TEAMS (swapColor k) = swapTeam (PLAYER_TEAMS k) := by
  cases k <;> rfl

theorem cellAt_swapTeams (b : Board) (r c : Nat) :
    cellAt (swapTeams b) r c = (cellAt b r c).map swapPiece := by
  unfold swapTeams cellAt
  rw [List.getElem?_map]
  cases b[r]? with
  | none => rfl
  | some row =>
    simp only [Option.map_some', Option.some_bind]
    rw [List.getElem?_map]
    cases row[c]? with
    | none => rfl
    | some cell => cases cell <;> rfl

theorem cellAtI_swapTeams (cfg : Config) (b : Board) (r c : Int) :
    cellAtI cfg (swapTeams b) r c = (cellAtI cfg b r c).map swapPiece := by
  unfold cellAtI
  by_cases hv : isValid cfg r c = true
  · rw [if_pos hv, if_pos hv, cellAt_swapTeams]
  · rw [if_neg hv, if_neg hv]
    rfl

theorem evalScanStep_swapTeams (cfg : Config) (b : Board) (team : Team) (p : Pos)
    (st : List Pos × List Pos) (d : Int × Int) :
    evalScanStep cfg (swapTeams b) (swapTeam team) p st d = evalScanStep cfg b team p st d := by
  unfold evalScanStep
  dsimp only
  rw [cellAtI_swapTeams]
  cases hcell : cellAtI cfg b ((p.r : Int) + d.1) ((p.c : Int) + d.2) with
  | none => rfl
  | some pc =>
    dsimp only [Option.map_some']
    have hcond : PLAYER_TEAMS (swapPiece pc).color = swapTeam team ↔
        PLAYER_TEAMS pc.color = team := by
      rw [show (swapPiece pc).color = swapColor pc.color from rfl, PLAYER_TEAMS_swapColor]
      exact swapTeam_eq_iff ..
    rw [if_congr (and_congr Iff.rfl hcond) rfl rfl]

theorem evalBfs_swapTeams (cfg : Config) (b : Board) (team : Team) :
    ∀ (fuel : Nat) (queue vis : List Pos) (box : Nat × Nat × Nat × Nat),
      evalBfs cfg (swapTeams b) (swapTeam team) fuel queue vis box =
        evalBfs cfg b team fuel queue vis box
  | 0, _, _, _ => rfl
  | _ + 1, [], _, _ => rfl
  | fuel + 1, p :: rest, vis, box => by
    unfold evalBfs
    rw [show evalScanStep cfg (swapTeams b) (swapTeam team) p = evalScanStep cfg b team p from
      funext fun st => funext fun d => evalScanStep_swapTeams cfg b team p st d]
    exact evalBfs_swapTeams cfg b team fuel _ _ _

theorem winScanStep_swapTeams (cfg : Config) (b : Board) (color : Color) (p : Pos)
    (st : List Pos × List Pos) (d : Int × Int) :
    winScanStep cfg (swapTeams b) (swapColor color) p st d = winScanStep cfg b color p st d := by
  unfold winScanStep
  dsimp only
  rw [cellAtI_swapTeams]
  cases hcell : cellAtI cfg b ((p.r : Int) + d.1) ((p.c : Int) + d.2) with
  | none => rfl
  | some pc =>
    dsimp only [Option.map_some']
    have hcond : (swapPiece pc).color = swapColor color ↔ pc.color = color := by
      rw [show (swapPiece pc).color = swapColor pc.color from rfl]
      exact swapColor_eq_iff ..
    rw [if_congr (and_congr hcond Iff.rfl) rfl rfl]

theorem winBfs_swapTeams (cfg : Config) (b : Board) (color : Color) (southward : Bool) :
    ∀ (fuel : Nat) (queue vis : List Pos),
      winBfs cfg (swapTeams b) (swapColor color) southward fuel queue vis =
        winBfs cfg b color southward fuel queue vis
  | 0, _, _ => rfl
  | _ + 1, [], _ => rfl
  | fuel + 1, p :: rest, vis => by
    unfold winBfs
    by_cases hstop : (southward = true ∧ p.r = cfg.boardSize - 1) ∨
        (¬southward = true ∧ p.c = cfg.boardSize - 1)
    · rw [if_pos hstop, if_pos hstop]
    · rw [if_neg hstop, if_neg hstop]
      rw [show winScanStep cfg (swapTeams b) (swapColor color) p = winScanStep cfg b color p from
        funext fun st => funext fun d => winScanStep_swapTeams cfg b color p st d]
      exact winBfs_swapTeams cfg b color southward fuel _ _

theorem tryStart_swapTeams (cfg : Config) (b : Board) (color : Color) (southward : Bool)
    (p : Pos) (vis : List Pos) :
    tryStart cfg (swapTeams b) (swapColor color) southward p vis =
      tryStart cfg b color southward p vis := by
  unfold tryStart
  by_cases h : p ∈ vis
  · rw [if_pos h, if_pos h]
  · rw [if_neg h, if_neg h, winBfs_swapTeams]

theorem hasConnStepNS_swapTeams (cfg : Config) (b : Board) (color : Color)
    (st : Bool × List Pos) (c : Nat) :
    hasConnStepNS cfg (swapTeams b) (swapColor color) st c = hasConnStepNS cfg b color st c := by
  unfold hasConnStepNS
  by_cases h1 : st.1 = true
  · rw [if_pos h1, if_pos h1]
  · rw [if_neg h1, if_neg h1, cellAt_swapTeams]
    cases hcell : cellAt b 0 c with
    | none => rfl
    | some pc =>
      dsimp only [Option.map_some']
      have hcond : (swapPiece pc).color = swapColor color ↔ pc.color = color := by
        rw [show (swapPiece pc).color = swapColor pc.color from rfl]
        exact swapColor_eq_iff ..
      rw [if_congr (and_congr hcond Iff.rfl) (tryStart_swapTeams ..) rfl]

theorem hasConnStepEW_swapTeams (cfg : Config) (b : Board) (color : Color)
    (st : Bool × List Pos) (r : Nat) :
    hasConnStepEW cfg (swapTeams b) (swapColor color) st r = hasConnStepEW cfg b color st r := by
  unfold hasConnStepEW
  by_cases h1 : st.1 = true
  · rw [if_pos h1, if_pos h1]
  · rw [if_neg h1, if_neg h1, cellAt_swapTeams]
    cases hcell : cellAt b r 0 with
    | none => rfl
    | some pc =>
      dsimp only [Option.map_some']
      have hcond : (swapPiece pc).color = swapColor color ↔ pc.color = color := by
        rw [show (swapPiece pc).color = swapColor pc.color from rfl]
        exact swapColor_eq_iff ..
      rw [if_congr (and_congr hcond Iff.rfl) (tryStart_swapTeams ..) rfl]

theorem hasConnection_swapTeams (cfg : Config) (b : Board) (color : Color) :
    hasConnection cfg (swapColor color) (swapTeams b) = hasConnection cfg color b := by
  unfold hasConnection
  rw [show hasConnStepNS cfg (swapTeams b) (swapColor color) = hasConnStepNS cfg b color from
    funext fun st => funext fun c => hasConnStepNS_swapTeams cfg b color st c]
  rw [show hasConnStepEW cfg (swapTeams b) (swapColor color) = hasConnStepEW cfg b color from
    funext fun st => funext fun r => hasConnStepEW_swapTeams cfg b color st r]

theorem evalStep_swapTeams (cfg : Config) (b : Board) (acc : EvalAcc) (p : Pos) :
    evalStep cfg (swapTeams b) (swapAcc acc) p = swapAcc (evalStep cfg b acc p) := by
  unfold evalStep
  rw [cellAt_swapTeams]
  cases hcell : cellAt b p.r p.c with
  | none => rfl
  | some pc =>
    dsimp only [Option.map_some']
    rw [show (swapPiece pc).color = swapColor pc.color from rfl, PLAYER_TEAMS_swapColor]
    cases ht : PLAYER_TEAMS pc.color with
    | one =>
      dsimp only [swapTeam, swapAcc]
      by_cases hv : p ∈ acc.visited
      · rw [if_pos hv, if_pos hv]
      · rw [if_neg hv, if_neg hv,
          show ∀ fuel q vis box, evalBfs cfg (swapTeams b) Team.two fuel q vis box =
              evalBfs cfg b Team.one fuel q vis box from
            fun fuel q vis box => evalBfs_swapTeams cfg b Team.one fuel q vis box]
    | two =>
      dsimp only [swapTeam, swapAcc]
      by_cases hv : p ∈ acc.visited
      · rw [if_pos hv, if_pos hv]
      · rw [if_neg hv, if_neg hv,
          show ∀ fuel q vis box, evalBfs cfg (swapTeams b) Team.one fuel q vis box =
              evalBfs cfg b Team.two fuel q vis box from
            fun fuel q vis box => evalBfs_swapTeams cfg b Team.two fuel q vis box]

theorem foldl_evalStep_swapTeams (cfg : Config) (b : Board) :
    ∀ (ps : List Pos) (acc : EvalAcc),
      ps.foldl (evalStep cfg (swapTeams b)) (swapAcc acc) =
        swapAcc (ps.foldl (evalStep cfg b) acc)
  | [], _ => rfl
  | p :: ps, acc => by
    rw [List.foldl_cons, List.foldl_cons, evalStep_swapTeams]
    exact foldl_evalStep_swapTeams cfg b ps _

/-- Claim C6 amended: evaluate is antisymmetric under the team swap on
every board outside the exact failure set, which is: A and B both
connected, or neither A nor B connected while C and D both are.  On those
boards checkWinCondition (testing colors in the order A, B, C, D) names a
team-1 winner on the board and on its swap, both sides get plus WIN_SCORE,
and antisymmetry fails, as the counterexample shows; everywhere else —
including boards where both teams are connected through other color pairs,
such as A together with D — the sign flips. -/
theorem C6_evaluate_antisymmetric (cfg : Config) (b : Board)
    (h : ¬((hasConnection cfg Color.A b = true ∧ hasConnection cfg Color.B b = true) ∨
      (hasConnection cfg Color.A b = false ∧ hasConnection cfg Color.B b = false ∧
       hasConnection cfg Color.C b = true ∧ hasConnection cfg Color.D b = true))) :
    evaluate cfg (swapTeams b) = -evaluate cfg b := by
  have hA : hasConnection cfg Color.A (swapTeams b) = hasConnection cfg Color.B b :=
    hasConnection_swapTeams cfg b Color.B
  have hB : hasConnection cfg Color.B (swapTeams b) = hasConnection cfg Color.A b :=
    hasConnection_swapTeams cfg b Color.A
  have hC : hasConnection cfg Color.C (swapTeams b) = hasConnection cfg Color.D b :=
    hasConnection_swapTeams cfg b Color.D
  have hD : hasConnection cfg Color.D (swapTeams b) = hasConnection cfg Color.C b :=
    hasConnection_swapTeams cfg b Color.C
  unfold evaluate checkWinCondition
  rw [hA, hB, hC, hD]
  cases h1 : hasConnection cfg Color.A b <;>
    cases h2 : hasConnection cfg Color.B b <;>
      cases h3 : hasConnection cfg Color.C b <;>
        cases h4 : hasConnection cfg Color.D b
  all_goals try simp_all [PLAYER_TEAMS]
  rw [show (⟨0, 0, 0, 0, 0, 0, []⟩ : EvalAcc) = swapAcc ⟨0, 0, 0, 0, 0, 0, []⟩ from rfl,
    foldl_evalStep_swapTeams]
  dsimp only [swapAcc]
  ring

/-- Witness for the amended C6 statement: witnessBoard lies outside the
failure set (no color is connected on it), and its evaluation flips sign
under the team swap. -/
theorem C6_evaluate_antisymmetric_witness :
    ¬((hasConnection (stdCfg 3) Color.A witnessBoard = true ∧
        hasConnection (stdCfg 3) Color.B witnessBoard = true) ∨
      (hasConnection (stdCfg 3) Color.A witnessBoard = false ∧
       hasConnection (stdCfg 3) Color.B witnessBoard = false ∧
       hasConnection (stdCfg 3) Color.C witnessBoard = true ∧
       hasConnection (stdCfg 3) Color.D witnessBoard = true)) ∧
    evaluate (stdCfg 3) (swapTeams witnessBoard) = -evaluate (stdCfg 3) witnessBoard :=
  ⟨by decide, C6_evaluate_antisymmetric (stdCfg 3) witnessBoard (by decide)⟩
